import Mathlib

/-!
Verification development for a small Solana program ("remote viewing" target
pools and sessions).  The definitions below are a shallow embedding of
`src/solana-program/src/lib.rs`: records become structures, account data
becomes `Option` (a zero-length account deserializes to `none`), machine
integers become `Nat` with explicit `% 2^16` where the source casts to `u16`,
and each instruction handler becomes a pure function returning
`Except ProgramError _`.  A small ledger keyed by identifier strings models
the PDA-addressed account store.
-/

/-- A public key, abstracted to a natural number (only equality is used). -/
abbrev Pubkey := Nat

/-- A 32-byte value, modelled as a list of byte values. -/
abbrev Hash32 := List Nat

/-- The program's custom error enum (`RemoteViewingError` in the source). -/
inductive RemoteViewingError
  | InvalidInstruction
  | InvalidPoolId
  | InvalidSessionId
  | PoolAlreadyExists
  | SessionAlreadyExists
  | PoolNotFound
  | InvalidTargetCount
  | AccountDataTooSmall
  | SessionNotFound
  | SessionAlreadyFinalized
  | TooEarlyToFinalize
  | InvalidSlotHash
  | AllTargetsCompleted
  | PoolAlreadyFinalized
deriving DecidableEq, Repr

/-- The host errors the handlers can surface, plus the custom enum.
`BorshIoError` is the error produced when deserializing account data fails
(in particular when the account is empty). -/
inductive ProgramError
  | MissingRequiredSignature
  | InvalidArgument
  | InvalidAccountData
  | BorshIoError
  | Custom (e : RemoteViewingError)
deriving DecidableEq, Repr

/-- The `TargetPool` state structure from the source. -/
structure TargetPool where
  pool_id : String
  creator : Pubkey
  target_count : Nat        -- u16 in the source
  targets : List Hash32
  created_at : Int
  finalized : Bool
deriving DecidableEq, Repr

/-- The `Session` state structure from the source. -/
structure Session where
  session_id : String
  pool_id : String
  session_media_hash : Hash32
  submission_slot : Nat     -- u64 in the source
  submission_blockhash : Hash32
  assigned_target_index : Nat  -- u16 in the source
  target_selector_program : Pubkey
  submitter : Pubkey
  submitted_at : Int
  finalized : Bool
  finalized_at : Int
  completed_target_indices : List Nat  -- Vec<u16> in the source
deriving DecidableEq, Repr

/-- Big-endian interpretation of a byte list (`u64::from_be_bytes` when the
list has exactly 8 byte-sized entries). -/
def u64FromBeBytes (bytes : List Nat) : Nat :=
  bytes.foldl (fun acc b => acc * 256 + b) 0

/-- Function `calculate_target_index` from the source: take the first 8 bytes of the
blockhash, read them as a big-endian u64, reduce modulo `target_count`, and
cast the result back to u16 (the final `% 65536`). -/
def calculate_target_index (blockhash : List Nat) (target_count : Nat) : Nat :=
  u64FromBeBytes (blockhash.take 8) % target_count % 65536

/-- The base-58 alphabet used by the `bs58` crate (Bitcoin alphabet). -/
def b58Alphabet : List Char :=
  "123456789ABCDEFGHJKLMNPQRSTUVWXYZabcdefghijkmnopqrstuvwxyz".toList

/-- Value of one base-58 character, `none` if the character is not in the
alphabet. -/
def b58Digit (c : Char) : Option Nat :=
  b58Alphabet.findIdx? (fun a => a = c)

/-- Fold a digit sequence into the number it denotes in base 58. -/
def b58DigitsToNat (ds : List Nat) : Nat :=
  ds.foldl (fun acc d => acc * 58 + d) 0

/-- Big-endian byte expansion of a natural number (no leading zero byte);
fuel-indexed so that it is structural (the fuel only needs to dominate the
number of base-256 digits, and `n` itself always does). -/
def natToBytesBEAux : Nat → Nat → List Nat
  | 0, _ => []
  | _ + 1, 0 => []
  | fuel + 1, n + 1 => natToBytesBEAux fuel ((n + 1) / 256) ++ [(n + 1) % 256]

/-- Big-endian byte expansion of a natural number. -/
def natToBytesBE (n : Nat) : List Nat :=
  natToBytesBEAux n n

/-- Decoding `bs58::decode(s).into_vec()`: every character must be a base-58 digit;
the string denotes a base-58 number, and each leading `'1'` contributes one
leading zero byte. -/
def bs58Decode (s : String) : Option (List Nat) :=
  match (s.toList.mapM b58Digit) with
  | none => none
  | some ds =>
      let zeros := (s.toList.takeWhile (fun c => c = '1')).length
      some (List.replicate zeros 0 ++ natToBytesBE (b58DigitsToNat ds))

/-- Handler `process_create_target_pool` (lines 177-262 of the source), as a pure
function of the deserialized content of the pool account (`none` when the
account holds no data) and the clock.  The PDA derivation and rent transfer
are handled by the ledger layer / host and are not part of the record
transformation. -/
def process_create_target_pool (creator : Pubkey) (creator_is_signer : Bool)
    (pool_data : Option TargetPool) (clock_unix_timestamp : Int)
    (pool_id : String) (target_hashes : List Hash32) :
    Except ProgramError TargetPool :=
  if creator_is_signer = false then .error .MissingRequiredSignature
  else if pool_data.isSome then .error (.Custom .PoolAlreadyExists)
  else if pool_id.isEmpty then .error (.Custom .InvalidPoolId)
  else if target_hashes.length > 10000 then .error (.Custom .InvalidTargetCount)
  else .ok
    { pool_id := pool_id
      creator := creator
      target_count := target_hashes.length % 65536
      targets := target_hashes
      created_at := clock_unix_timestamp
      finalized := false }

/-- Handler `process_submit_session` (lines 264-363 of the source).  Note that the
pool account's data is deserialized directly (line 313) with no emptiness
check, so a missing pool surfaces as `BorshIoError`, and `PoolNotFound` is
raised only on a `pool_id` mismatch (lines 316-318). -/
def process_submit_session (submitter : Pubkey) (submitter_is_signer : Bool)
    (session_data : Option Session) (pool_data : Option TargetPool)
    (clock_slot : Nat) (clock_unix_timestamp : Int)
    (session_id : String) (pool_id : String) (session_media_hash : Hash32)
    (target_selector_program : Pubkey) (completed_target_indices : List Nat) :
    Except ProgramError Session :=
  if submitter_is_signer = false then .error .MissingRequiredSignature
  else if session_data.isSome then .error (.Custom .SessionAlreadyExists)
  else if session_id.isEmpty then .error (.Custom .InvalidSessionId)
  else if pool_id.isEmpty then .error (.Custom .InvalidPoolId)
  else
    match pool_data with
    | none => .error .BorshIoError
    | some pool =>
      if pool.pool_id ≠ pool_id then .error (.Custom .PoolNotFound)
      else .ok
        { session_id := session_id
          pool_id := pool_id
          session_media_hash := session_media_hash
          submission_slot := clock_slot
          submission_blockhash := List.replicate 32 0
          assigned_target_index := 65535   -- u16::MAX placeholder
          target_selector_program := target_selector_program
          submitter := submitter
          submitted_at := clock_unix_timestamp
          finalized := false
          finalized_at := 0
          completed_target_indices := completed_target_indices }

/-- Lines 432-435 of the source: the list of available target indices,
`(0..pool.target_count)` with every index contained in
`completed_target_indices` retained out. -/
def availableIndices (target_count : Nat) (completed_target_indices : List Nat) :
    List Nat :=
  (List.range target_count).filter
    (fun index => !(completed_target_indices.contains index))

/-- Borsh-serialized byte size of a `Session` record, field by field in
declaration order: length-prefixed strings (u32 prefix plus UTF-8 bytes),
fixed 32-byte arrays and pubkeys, u64/i64 as 8 bytes, u16 as 2, bool as 1,
and the `Vec<u16>` as a u32 prefix plus 2 bytes per entry. -/
def sessionSerializedSize (s : Session) : Nat :=
  (4 + s.session_id.utf8ByteSize) + (4 + s.pool_id.utf8ByteSize) +
    32 + 8 + 32 + 2 + 32 + 32 + 8 + 1 + 8 +
    (4 + 2 * s.completed_target_indices.length)

/-- The updated session record a successful finalize commits (lines 446-451
of the source): entropy bytes stored, assigned index drawn from the
available list, finalized flag and timestamp set, and the finalize call's
`completed_target_indices` persisted. -/
def finalizedSession (session : Session) (pool : TargetPool)
    (blockhash_bytes : List Nat) (clock_unix_timestamp : Int)
    (completed_target_indices : List Nat) : Session :=
  { session with
    submission_blockhash := blockhash_bytes
    assigned_target_index :=
      (availableIndices pool.target_count completed_target_indices).getD
        (calculate_target_index blockhash_bytes
          (availableIndices pool.target_count completed_target_indices).length) 0
    finalized := true
    finalized_at := clock_unix_timestamp
    completed_target_indices := completed_target_indices }

/-- Handler `process_finalize_session` (lines 365-464 of the source), as a pure
function of the deserialized contents of the session account and of the
pool account the caller supplied (the source performs no check tying that
account to `session.pool_id`).  The final write (line 454) serializes the
updated record back into the session account, which was allocated at submit
time with exactly the stored record's serialized size and is never
reallocated; when the updated record is larger — the only growing field is
`completed_target_indices` — the borsh write runs out of buffer and the
call aborts with the deserialization/serialization io error. -/
def process_finalize_session (caller_is_signer : Bool)
    (session_data : Option Session) (pool_data : Option TargetPool)
    (clock_slot : Nat) (clock_unix_timestamp : Int)
    (session_id : String) (submission_blockhash : String)
    (completed_target_indices : List Nat) :
    Except ProgramError Session :=
  if caller_is_signer = false then .error .MissingRequiredSignature
  else
    match session_data with
    | none => .error .BorshIoError
    | some session =>
      if session.session_id ≠ session_id then .error (.Custom .SessionNotFound)
      else if session.finalized then .error (.Custom .SessionAlreadyFinalized)
      else if clock_slot < session.submission_slot + 2 then
        .error (.Custom .TooEarlyToFinalize)
      else if clock_slot > session.submission_slot + 150 then
        .error (.Custom .InvalidSlotHash)
      else
        match pool_data with
        | none => .error .BorshIoError
        | some pool =>
          if submission_blockhash.isEmpty then .error (.Custom .InvalidSlotHash)
          else
            match bs58Decode submission_blockhash with
            | none => .error (.Custom .InvalidSlotHash)
            | some blockhash_bytes =>
              if blockhash_bytes.length ≠ 32 then .error (.Custom .InvalidSlotHash)
              else if (availableIndices pool.target_count
                  completed_target_indices).isEmpty then
                .error (.Custom .AllTargetsCompleted)
              else if sessionSerializedSize
                    (finalizedSession session pool blockhash_bytes
                      clock_unix_timestamp completed_target_indices)
                  > sessionSerializedSize session then
                .error .BorshIoError
              else
                .ok (finalizedSession session pool blockhash_bytes
                  clock_unix_timestamp completed_target_indices)

/-- Handler `process_append_targets_to_pool` (lines 476-573 of the source).  The
rent top-up and account reallocation only resize storage and are handled by
the host; the record transformation is appending the hashes and refreshing
the denormalized `target_count` (`as u16` cast kept as `% 65536`). -/
def process_append_targets_to_pool (creator : Pubkey) (creator_is_signer : Bool)
    (pool_data : Option TargetPool) (target_hashes : List Hash32) :
    Except ProgramError TargetPool :=
  if creator_is_signer = false then .error .MissingRequiredSignature
  else
    match pool_data with
    | none => .error (.Custom .PoolNotFound)
    | some pool =>
      if pool.creator ≠ creator then .error .InvalidAccountData
      else if pool.finalized then .error (.Custom .PoolAlreadyFinalized)
      else if target_hashes.isEmpty then .error (.Custom .InvalidTargetCount)
      else if pool.targets.length + target_hashes.length > 10000 then
        .error (.Custom .InvalidTargetCount)
      else .ok
        { pool with
          targets := pool.targets ++ target_hashes
          target_count := (pool.targets ++ target_hashes).length % 65536 }

/-- Handler `process_finalize_pool` (lines 575-632 of the source). -/
def process_finalize_pool (creator : Pubkey) (creator_is_signer : Bool)
    (pool_data : Option TargetPool) :
    Except ProgramError TargetPool :=
  if creator_is_signer = false then .error .MissingRequiredSignature
  else
    match pool_data with
    | none => .error (.Custom .PoolNotFound)
    | some pool =>
      if pool.creator ≠ creator then .error .InvalidAccountData
      else if pool.finalized then .error (.Custom .PoolAlreadyFinalized)
      else if pool.targets.isEmpty then .error (.Custom .InvalidTargetCount)
      else .ok { pool with finalized := true }

/-- The instruction enum (`RemoteViewingInstruction` in the source). -/
inductive RemoteViewingInstruction
  | CreateTargetPool (pool_id : String) (target_hashes : List Hash32)
  | SubmitSession (session_id : String) (pool_id : String)
      (session_media_hash : Hash32) (target_selector_program : Pubkey)
      (completed_target_indices : List Nat)
  | FinalizeSession (session_id : String) (submission_blockhash : String)
      (completed_target_indices : List Nat)
  | AppendTargetsToPool (pool_id : String) (target_hashes : List Hash32)
  | FinalizePool (pool_id : String)
deriving DecidableEq, Repr

/-- The durable account store, keyed by identifier string (PDA derivation is
injective on identifiers by collision resistance, so identifiers serve as
addresses). -/
structure Ledger where
  pools : List (String × TargetPool)
  sessions : List (String × Session)
deriving DecidableEq, Repr

def Ledger.getPool (l : Ledger) (k : String) : Option TargetPool :=
  l.pools.lookup k

def Ledger.getSession (l : Ledger) (k : String) : Option Session :=
  l.sessions.lookup k

def Ledger.setPool (l : Ledger) (k : String) (p : TargetPool) : Ledger :=
  { l with pools := (k, p) :: l.pools }

def Ledger.setSession (l : Ledger) (k : String) (s : Session) : Ledger :=
  { l with sessions := (k, s) :: l.sessions }

/-- Per-call context: the authenticated caller, the clock sysvar, and which
pool account the caller attached for `SubmitSession` / `FinalizeSession`
(those handlers take the pool account as-given, with no PDA check). -/
structure CallCtx where
  caller : Pubkey
  caller_is_signer : Bool
  clock_slot : Nat
  clock_unix_timestamp : Int
  supplied_pool_key : String
deriving DecidableEq, Repr

/-- Dispatcher `process_instruction` at the ledger level: route to the handler, reading
the accounts the instruction names (pool operations are PDA-checked against
the `pool_id`/`session_id` argument, so their account is the one at that
key; the session instructions read whatever pool account the caller
supplied) and committing the written record on success. -/
def applyInstruction (l : Ledger) (ctx : CallCtx) :
    RemoteViewingInstruction → Except ProgramError Ledger
  | .CreateTargetPool pool_id target_hashes =>
      (process_create_target_pool ctx.caller ctx.caller_is_signer
        (l.getPool pool_id) ctx.clock_unix_timestamp pool_id
        target_hashes).map (l.setPool pool_id)
  | .SubmitSession session_id pool_id session_media_hash tsp cti =>
      (process_submit_session ctx.caller ctx.caller_is_signer
        (l.getSession session_id) (l.getPool ctx.supplied_pool_key)
        ctx.clock_slot ctx.clock_unix_timestamp session_id pool_id
        session_media_hash tsp cti).map (l.setSession session_id)
  | .FinalizeSession session_id submission_blockhash cti =>
      (process_finalize_session ctx.caller_is_signer
        (l.getSession session_id) (l.getPool ctx.supplied_pool_key)
        ctx.clock_slot ctx.clock_unix_timestamp session_id
        submission_blockhash cti).map (l.setSession session_id)
  | .AppendTargetsToPool pool_id target_hashes =>
      (process_append_targets_to_pool ctx.caller ctx.caller_is_signer
        (l.getPool pool_id) target_hashes).map (l.setPool pool_id)
  | .FinalizePool pool_id =>
      (process_finalize_pool ctx.caller ctx.caller_is_signer
        (l.getPool pool_id)).map (l.setPool pool_id)

/-- A transaction that errors commits nothing: the durable state after a
call is the new ledger on success and the old ledger on failure. -/
def runInstruction (l : Ledger) (ctx : CallCtx)
    (i : RemoteViewingInstruction) : Ledger :=
  match applyInstruction l ctx i with
  | .ok l2 => l2
  | .error _ => l

/-- The entropy-format precondition of finalize (lines 414-426 of the
source): the textual entropy is nonempty and base-58-decodes to exactly 32
bytes. -/
def entropyWellFormed (s : String) : Bool :=
  !s.isEmpty &&
    (match bs58Decode s with
     | some bytes => bytes.length == 32
     | none => false)

/-- Sentinel invariant: every stored session that is not finalized still
carries the `u16::MAX` placeholder target index. -/
def sentinelInvariant (l : Ledger) : Prop :=
  ∀ k s, l.getSession k = some s → s.finalized = false →
    s.assigned_target_index = 65535

/-- The empty account store. -/
def emptyLedger : Ledger := { pools := [], sessions := [] }

/-- An all-zero 32-byte value. -/
def hash0 : Hash32 := List.replicate 32 0

/-- Concrete pool "A" with 2 targets, finalized. -/
def poolA : TargetPool :=
  { pool_id := "A", creator := 1, target_count := 2,
    targets := [hash0, hash0], created_at := 0, finalized := true }

/-- Concrete pool "B" with 5 targets, finalized. -/
def poolB : TargetPool :=
  { pool_id := "B", creator := 1, target_count := 5,
    targets := List.replicate 5 hash0, created_at := 0, finalized := true }

/-- Concrete unfinalized session referencing pool "A", submitted at slot
100. -/
def sessionA : Session :=
  { session_id := "s1", pool_id := "A", session_media_hash := hash0,
    submission_slot := 100, submission_blockhash := hash0,
    assigned_target_index := 65535, target_selector_program := 2,
    submitter := 3, submitted_at := 0, finalized := false, finalized_at := 0,
    completed_target_indices := [] }

/-- Concrete ledger holding pools "A" and "B" and session "s1". -/
def ledger1 : Ledger :=
  { pools := [("A", poolA), ("B", poolB)], sessions := [("s1", sessionA)] }

/-- A base-58 string that decodes to 32 bytes whose leading 8 bytes are the
big-endian encoding of 7. -/
def entropy7 : String := "11111113pNDtm61yGF8j2ycAwLEPsuWQXobye5qDR"

/-- The 32-byte value `entropy7` decodes to. -/
def entropy7Bytes : List Nat := [0, 0, 0, 0, 0, 0, 0, 7] ++ List.replicate 24 0

/-- The session record produced by finalizing `sessionA` at slot 102 /
time 50 with `entropy7` and no completed indices, against the 5-target
pool `poolB`: `7 mod 5 = 2`. -/
def session1Final : Session :=
  { sessionA with
    submission_blockhash := entropy7Bytes
    assigned_target_index := 2
    finalized := true
    finalized_at := 50
    completed_target_indices := [] }

/-- A variant of `sessionA` whose submit-time completed list already holds
one entry, so a finalize-time list of one entry fits the account sized at
submit. -/
def sessionA2 : Session :=
  { sessionA with completed_target_indices := [2] }

/-- The session record produced by a successful submit of session "s9"
against pool "B" at slot 100 / time 0 with completed indices `[7]`. -/
def sessionSub : Session :=
  { session_id := "s9", pool_id := "B", session_media_hash := hash0,
    submission_slot := 100, submission_blockhash := List.replicate 32 0,
    assigned_target_index := 65535, target_selector_program := 2,
    submitter := 3, submitted_at := 0, finalized := false, finalized_at := 0,
    completed_target_indices := [7] }

/-- The pool record produced by creating pool "p" with no initial targets
at time 0 by creator 1. -/
def poolCreated : TargetPool :=
  { pool_id := "p", creator := 1, target_count := 0, targets := [],
    created_at := 0, finalized := false }

theorem lookup_cons_self {β : Type} (k : String) (v : β) (l : List (String × β)) :
    List.lookup k ((k, v) :: l) = some v := by
  simp [List.lookup]

theorem lookup_cons_ne {β : Type} {k k2 : String} (v : β) (l : List (String × β))
    (h : k ≠ k2) : List.lookup k ((k2, v) :: l) = List.lookup k l := by
  simp only [List.lookup]
  cases h2 : (k == k2) with
  | true => exact absurd (beq_iff_eq.mp h2) h
  | false => rfl

theorem getPool_setPool_self (l : Ledger) (k : String) (p : TargetPool) :
    (l.setPool k p).getPool k = some p :=
  lookup_cons_self k p l.pools

theorem getPool_setPool_ne (l : Ledger) {k k2 : String} (p : TargetPool)
    (h : k2 ≠ k) : (l.setPool k p).getPool k2 = l.getPool k2 :=
  lookup_cons_ne p l.pools h

theorem getPool_setSession (l : Ledger) (k : String) (s : Session)
    (k2 : String) : (l.setSession k s).getPool k2 = l.getPool k2 := rfl

theorem getSession_setPool (l : Ledger) (k : String) (p : TargetPool)
    (k2 : String) : (l.setPool k p).getSession k2 = l.getSession k2 := rfl

theorem getSession_setSession_self (l : Ledger) (k : String) (s : Session) :
    (l.setSession k s).getSession k = some s :=
  lookup_cons_self k s l.sessions

theorem getSession_setSession_ne (l : Ledger) {k k2 : String} (s : Session)
    (h : k2 ≠ k) : (l.setSession k s).getSession k2 = l.getSession k2 :=
  lookup_cons_ne s l.sessions h

theorem runInstruction_of_error {l : Ledger} {ctx : CallCtx}
    {i : RemoteViewingInstruction} {e : ProgramError}
    (h : applyInstruction l ctx i = .error e) : runInstruction l ctx i = l := by
  simp [runInstruction, h]

theorem runInstruction_of_ok {l l2 : Ledger} {ctx : CallCtx}
    {i : RemoteViewingInstruction}
    (h : applyInstruction l ctx i = .ok l2) : runInstruction l ctx i = l2 := by
  simp [runInstruction, h]

theorem calculate_target_index_lt (blockhash : List Nat) {n : Nat}
    (hn : 0 < n) : calculate_target_index blockhash n < n :=
  Nat.lt_of_le_of_lt (Nat.mod_le _ _) (Nat.mod_lt _ hn)

theorem getD_mem_of_lt {l : List Nat} {i : Nat} (h : i < l.length) :
    l.getD i 0 ∈ l := by
  rw [List.getD_eq_getElem?_getD, List.getElem?_eq_getElem h]
  simp only [Option.getD_some]
  exact List.getElem_mem h

theorem assigned_mem_available (avail : List Nat) (bytes : List Nat)
    (h : avail ≠ []) :
    avail.getD (calculate_target_index bytes avail.length) 0 ∈ avail :=
  getD_mem_of_lt (calculate_target_index_lt bytes (List.length_pos.mpr h))

theorem mem_availableIndices {target_count : Nat} {cti : List Nat} {i : Nat}
    (h : i ∈ availableIndices target_count cti) :
    i < target_count ∧ i ∉ cti := by
  rw [availableIndices, List.mem_filter, List.mem_range] at h
  refine ⟨h.1, ?_⟩
  have h2 := h.2
  simp only [Bool.not_eq_true', List.contains] at h2
  intro hmem
  rw [List.elem_iff.mpr hmem] at h2
  cases h2

theorem availableIndices_eq_nil_iff (target_count : Nat) (cti : List Nat) :
    availableIndices target_count cti = [] ↔
      ∀ i < target_count, i ∈ cti := by
  rw [availableIndices, List.filter_eq_nil_iff]
  constructor
  · intro h i hi
    have := h i (List.mem_range.mpr hi)
    simpa [List.contains, List.elem_iff] using this
  · intro h i hi
    simp only [Bool.not_eq_true', Bool.not_eq_false]
    exact List.elem_iff.mpr (h i (List.mem_range.mp hi))

theorem finalize_ok_inv {sig : Bool} {sd : Option Session}
    {pd : Option TargetPool} {slot : Nat} {t : Int} {sid bh : String}
    {cti : List Nat} {s2 : Session}
    (h : process_finalize_session sig sd pd slot t sid bh cti = .ok s2) :
    ∃ sess pool bytes,
      sd = some sess ∧ pd = some pool ∧ bs58Decode bh = some bytes ∧
      bytes.length = 32 ∧
      sess.session_id = sid ∧ sess.finalized = false ∧
      sess.submission_slot + 2 ≤ slot ∧ slot ≤ sess.submission_slot + 150 ∧
      availableIndices pool.target_count cti ≠ [] ∧
      s2 = { sess with
             submission_blockhash := bytes
             assigned_target_index :=
               (availableIndices pool.target_count cti).getD
                 (calculate_target_index bytes
                   (availableIndices pool.target_count cti).length) 0
             finalized := true
             finalized_at := t
             completed_target_indices := cti } := by
  unfold process_finalize_session at h
  split at h
  · exact Except.noConfusion h
  split at h
  · exact Except.noConfusion h
  rename_i sess
  split at h
  · exact Except.noConfusion h
  rename_i hsid
  split at h
  · exact Except.noConfusion h
  rename_i hfin
  split at h
  · exact Except.noConfusion h
  rename_i hearly
  split at h
  · exact Except.noConfusion h
  rename_i hlate
  split at h
  · exact Except.noConfusion h
  rename_i pool
  split at h
  · exact Except.noConfusion h
  split at h
  · exact Except.noConfusion h
  rename_i bytes hdec
  split at h
  · exact Except.noConfusion h
  rename_i hlen
  split at h
  · exact Except.noConfusion h
  rename_i hnonempty
  split at h
  · exact Except.noConfusion h
  injection h with h2
  refine ⟨sess, pool, bytes, rfl, rfl, hdec, ?_, ?_, ?_, ?_, ?_, ?_, h2.symm⟩
  · exact Classical.not_not.mp hlen
  · exact Classical.not_not.mp hsid
  · exact Bool.not_eq_true sess.finalized ▸ hfin
  · omega
  · omega
  · exact fun hnil => hnonempty (by rw [hnil]; rfl)

theorem submit_ok_inv {submitter : Pubkey} {sig : Bool} {sd : Option Session}
    {pd : Option TargetPool} {slot : Nat} {t : Int} {sid pid : String}
    {mh : Hash32} {tsp : Pubkey} {cti : List Nat} {s : Session}
    (h : process_submit_session submitter sig sd pd slot t sid pid mh tsp cti
          = .ok s) :
    ∃ pool, sd = none ∧ pd = some pool ∧ pool.pool_id = pid ∧
      s = { session_id := sid, pool_id := pid, session_media_hash := mh,
            submission_slot := slot,
            submission_blockhash := List.replicate 32 0,
            assigned_target_index := 65535, target_selector_program := tsp,
            submitter := submitter, submitted_at := t, finalized := false,
            finalized_at := 0, completed_target_indices := cti } := by
  unfold process_submit_session at h
  split at h
  · exact Except.noConfusion h
  split at h
  · exact Except.noConfusion h
  rename_i hsd
  split at h
  · exact Except.noConfusion h
  split at h
  · exact Except.noConfusion h
  split at h
  · exact Except.noConfusion h
  rename_i pool
  split at h
  · exact Except.noConfusion h
  rename_i hpid
  injection h with h2
  exact ⟨pool, Option.not_isSome_iff_eq_none.mp hsd, rfl,
    Classical.not_not.mp hpid, h2.symm⟩

theorem create_ok_inv {creator : Pubkey} {sig : Bool}
    {pd : Option TargetPool} {t : Int} {pid : String} {hashes : List Hash32}
    {p : TargetPool}
    (h : process_create_target_pool creator sig pd t pid hashes = .ok p) :
    pd = none ∧
    p = { pool_id := pid, creator := creator,
          target_count := hashes.length % 65536, targets := hashes,
          created_at := t, finalized := false } := by
  unfold process_create_target_pool at h
  split at h
  · exact Except.noConfusion h
  split at h
  · exact Except.noConfusion h
  rename_i hpd
  split at h
  · exact Except.noConfusion h
  split at h
  · exact Except.noConfusion h
  injection h with h2
  exact ⟨Option.not_isSome_iff_eq_none.mp hpd, h2.symm⟩

theorem append_ok_inv {creator : Pubkey} {sig : Bool}
    {pd : Option TargetPool} {hashes : List Hash32} {p2 : TargetPool}
    (h : process_append_targets_to_pool creator sig pd hashes = .ok p2) :
    ∃ pool, pd = some pool ∧ pool.finalized = false ∧
      pool.creator = creator ∧
      p2 = { pool with
             targets := pool.targets ++ hashes
             target_count := (pool.targets ++ hashes).length % 65536 } := by
  unfold process_append_targets_to_pool at h
  split at h
  · exact Except.noConfusion h
  split at h
  · exact Except.noConfusion h
  rename_i pool
  split at h
  · exact Except.noConfusion h
  rename_i hcr
  split at h
  · exact Except.noConfusion h
  rename_i hfin
  split at h
  · exact Except.noConfusion h
  split at h
  · exact Except.noConfusion h
  injection h with h2
  exact ⟨pool, rfl, Bool.not_eq_true pool.finalized ▸ hfin,
    Classical.not_not.mp hcr, h2.symm⟩

theorem finalize_pool_ok_inv {creator : Pubkey} {sig : Bool}
    {pd : Option TargetPool} {p2 : TargetPool}
    (h : process_finalize_pool creator sig pd = .ok p2) :
    ∃ pool, pd = some pool ∧ pool.finalized = false ∧
      p2 = { pool with finalized := true } := by
  unfold process_finalize_pool at h
  split at h
  · exact Except.noConfusion h
  split at h
  · exact Except.noConfusion h
  rename_i pool
  split at h
  · exact Except.noConfusion h
  split at h
  · exact Except.noConfusion h
  rename_i hfin
  split at h
  · exact Except.noConfusion h
  injection h with h2
  exact ⟨pool, rfl, Bool.not_eq_true pool.finalized ▸ hfin, h2.symm⟩

theorem except_map_ok {ε α β : Type} {f : α → β} {r : Except ε α} {b : β}
    (h : Except.map f r = .ok b) : ∃ a, r = .ok a ∧ b = f a := by
  cases r with
  | error e => simp [Except.map] at h
  | ok a =>
    refine ⟨a, rfl, ?_⟩
    simp only [Except.map] at h
    injection h with h2
    exact h2.symm

theorem except_map_error {ε α β : Type} {f : α → β} {r : Except ε α} {e : ε} :
    Except.map f r = .error e ↔ r = .error e := by
  cases r <;> simp [Except.map]

/-- C8: once a pool's `finalized` flag is true, its targets sequence
never changes again.  An authorized append on a finalized pool fails with
`PoolAlreadyFinalized`, and no instruction of the program ever replaces or
alters the stored finalized pool record — in particular `targets` stays
unchanged and no operation ever sets `finalized` back to `false`. -/
theorem pool_finalized_is_frozen :
    (∀ (l : Ledger) (ctx : CallCtx) (pid : String) (hashes : List Hash32)
        (p : TargetPool),
      ctx.caller_is_signer = true → l.getPool pid = some p →
      p.creator = ctx.caller → p.finalized = true →
      applyInstruction l ctx (.AppendTargetsToPool pid hashes)
        = .error (.Custom .PoolAlreadyFinalized)) ∧
    (∀ (l : Ledger) (ctx : CallCtx) (i : RemoteViewingInstruction)
        (pid : String) (p : TargetPool),
      l.getPool pid = some p → p.finalized = true →
      (runInstruction l ctx i).getPool pid = some p) := by
  constructor
  · intro l ctx pid hashes p hsig hp hcr hfin
    simp only [applyInstruction, hp]
    have hproc : process_append_targets_to_pool ctx.caller ctx.caller_is_signer
        (some p) hashes = .error (.Custom .PoolAlreadyFinalized) := by
      simp [process_append_targets_to_pool, hsig, hcr, hfin]
    rw [hproc]
    rfl
  · intro l ctx i pid p hp hfin
    cases i with
    | CreateTargetPool pid2 hashes =>
      cases happ : applyInstruction l ctx (.CreateTargetPool pid2 hashes) with
      | error e => rw [runInstruction_of_error happ]; exact hp
      | ok l2 =>
        rw [runInstruction_of_ok happ]
        simp only [applyInstruction] at happ
        obtain ⟨q, hq, hl2⟩ := except_map_ok happ
        subst hl2
        by_cases hk : pid = pid2
        · subst hk
          obtain ⟨hnone, _⟩ := create_ok_inv hq
          rw [hp] at hnone
          exact Option.noConfusion hnone
        · rw [getPool_setPool_ne _ _ hk]; exact hp
    | SubmitSession sid pid2 mh tsp cti =>
      cases happ : applyInstruction l ctx (.SubmitSession sid pid2 mh tsp cti) with
      | error e => rw [runInstruction_of_error happ]; exact hp
      | ok l2 =>
        rw [runInstruction_of_ok happ]
        simp only [applyInstruction] at happ
        obtain ⟨q, hq, hl2⟩ := except_map_ok happ
        subst hl2
        rw [getPool_setSession]; exact hp
    | FinalizeSession sid bh cti =>
      cases happ : applyInstruction l ctx (.FinalizeSession sid bh cti) with
      | error e => rw [runInstruction_of_error happ]; exact hp
      | ok l2 =>
        rw [runInstruction_of_ok happ]
        simp only [applyInstruction] at happ
        obtain ⟨q, hq, hl2⟩ := except_map_ok happ
        subst hl2
        rw [getPool_setSession]; exact hp
    | AppendTargetsToPool pid2 hashes =>
      cases happ : applyInstruction l ctx (.AppendTargetsToPool pid2 hashes) with
      | error e => rw [runInstruction_of_error happ]; exact hp
      | ok l2 =>
        rw [runInstruction_of_ok happ]
        simp only [applyInstruction] at happ
        obtain ⟨q, hq, hl2⟩ := except_map_ok happ
        subst hl2
        by_cases hk : pid = pid2
        · subst hk
          rw [hp] at hq
          obtain ⟨pool, hpd, hfin2, _, _⟩ := append_ok_inv hq
          rw [Option.some.inj hpd] at hfin
          rw [hfin] at hfin2
          exact Bool.noConfusion hfin2
        · rw [getPool_setPool_ne _ _ hk]; exact hp
    | FinalizePool pid2 =>
      cases happ : applyInstruction l ctx (.FinalizePool pid2) with
      | error e => rw [runInstruction_of_error happ]; exact hp
      | ok l2 =>
        rw [runInstruction_of_ok happ]
        simp only [applyInstruction] at happ
        obtain ⟨q, hq, hl2⟩ := except_map_ok happ
        subst hl2
        by_cases hk : pid = pid2
        · subst hk
          rw [hp] at hq
          obtain ⟨pool, hpd, hfin2, _⟩ := finalize_pool_ok_inv hq
          rw [Option.some.inj hpd] at hfin
          rw [hfin] at hfin2
          exact Bool.noConfusion hfin2
        · rw [getPool_setPool_ne _ _ hk]; exact hp

/-- Witness for C8 at a concrete input: pool "A" in `ledger1` is finalized;
an append by its creator fails with `PoolAlreadyFinalized`, and running
`FinalizePool` leaves the stored record intact. -/
theorem pool_finalized_is_frozen_witness :
    applyInstruction ledger1 ⟨1, true, 102, 50, "B"⟩
        (.AppendTargetsToPool "A" [hash0])
      = .error (.Custom .PoolAlreadyFinalized) ∧
    (runInstruction ledger1 ⟨1, true, 102, 50, "B"⟩
        (.FinalizePool "A")).getPool "A" = some poolA :=
  ⟨pool_finalized_is_frozen.1 ledger1 ⟨1, true, 102, 50, "B"⟩ "A" [hash0]
      poolA rfl (by decide) (by decide) (by decide),
   pool_finalized_is_frozen.2 ledger1 ⟨1, true, 102, 50, "B"⟩
      (.FinalizePool "A") "A" poolA (by decide) (by decide)⟩

/-- C7: an append to an existing pool by an authenticated caller whose
identity differs from the pool's stored `creator` fails with the
creator-mismatch authority error — the spec's `Unauthorized`, surfaced by
the program as `ProgramError::InvalidAccountData` (source lines 512-515) —
and leaves the ledger, in particular the pool record, unchanged. -/
theorem append_by_non_creator_fails (l : Ledger) (ctx : CallCtx)
    (pid : String) (hashes : List Hash32) (p : TargetPool)
    (hsig : ctx.caller_is_signer = true) (hp : l.getPool pid = some p)
    (hne : p.creator ≠ ctx.caller) :
    applyInstruction l ctx (.AppendTargetsToPool pid hashes)
      = .error .InvalidAccountData ∧
    runInstruction l ctx (.AppendTargetsToPool pid hashes) = l := by
  have happ : applyInstruction l ctx (.AppendTargetsToPool pid hashes)
      = .error .InvalidAccountData := by
    simp only [applyInstruction, hp]
    have hproc : process_append_targets_to_pool ctx.caller
        ctx.caller_is_signer (some p) hashes = .error .InvalidAccountData := by
      simp [process_append_targets_to_pool, hsig, hne]
    rw [hproc]
    rfl
  exact ⟨happ, runInstruction_of_error happ⟩

/-- Witness for C7: caller 9 is not the creator (1) of pool "A". -/
theorem append_by_non_creator_fails_witness :
    applyInstruction ledger1 ⟨9, true, 102, 50, "B"⟩
        (.AppendTargetsToPool "A" [hash0])
      = .error .InvalidAccountData ∧
    runInstruction ledger1 ⟨9, true, 102, 50, "B"⟩
        (.AppendTargetsToPool "A" [hash0]) = ledger1 :=
  append_by_non_creator_fails ledger1 ⟨9, true, 102, 50, "B"⟩ "A" [hash0]
    poolA rfl (by decide) (by decide)

theorem foldl_be_lt (l : List Nat) (h : ∀ b ∈ l, b < 256) :
    ∀ acc, List.foldl (fun a b => a * 256 + b) acc l
      < (acc + 1) * 256 ^ l.length := by
  induction l with
  | nil =>
    intro acc
    simp only [List.foldl_nil, List.length_nil, pow_zero, Nat.mul_one]
    exact Nat.lt_succ_self acc
  | cons b rest ih =>
    intro acc
    have hb : b < 256 := h b (List.mem_cons_self b rest)
    have hrest : ∀ x ∈ rest, x < 256 := fun x hx => h x (List.mem_cons_of_mem b hx)
    have h1 := ih hrest (acc * 256 + b)
    have h2 : (acc * 256 + b + 1) * 256 ^ rest.length
        ≤ ((acc + 1) * 256) * 256 ^ rest.length :=
      Nat.mul_le_mul_right _ (by omega)
    have h3 : List.foldl (fun a b => a * 256 + b) (acc * 256 + b) rest
        < ((acc + 1) * 256) * 256 ^ rest.length := lt_of_lt_of_le h1 h2
    have h4 : ((acc + 1) * 256) * 256 ^ rest.length
        = (acc + 1) * 256 ^ (rest.length + 1) := by ring
    rw [List.foldl_cons, List.length_cons]
    rw [h4] at h3
    exact h3

theorem u64FromBeBytes_lt (l : List Nat) (h : ∀ b ∈ l, b < 256)
    (hlen : l.length = 8) : u64FromBeBytes l < 2 ^ 64 := by
  have hb := foldl_be_lt l h 0
  rw [hlen] at hb
  unfold u64FromBeBytes
  calc List.foldl (fun a b => a * 256 + b) 0 l < (0 + 1) * 256 ^ 8 := hb
  _ = 2 ^ 64 := by norm_num

/-- C4: for a 32-byte entropy value and any `available_count` in the
u16 range with `n ≥ 1`, the selector returns the big-endian u64 read from
the first 8 entropy bytes reduced modulo `n` (the trailing u16 cast is the
identity there), that value is a genuine u64, and the result lies in
`[0, n)`.  Determinism in `(entropy, n)` is immediate:
`calculate_target_index` is a pure function of its two arguments. -/
theorem select_spec (blockhash : List Nat) (n : Nat)
    (hlen : blockhash.length = 32) (hbytes : ∀ b ∈ blockhash, b < 256)
    (hn : 1 ≤ n) (hn16 : n ≤ 65535) :
    calculate_target_index blockhash n
        = u64FromBeBytes (blockhash.take 8) % n ∧
    u64FromBeBytes (blockhash.take 8) < 2 ^ 64 ∧
    calculate_target_index blockhash n < n := by
  have hpos : 0 < n := hn
  have hlt : u64FromBeBytes (blockhash.take 8) % n < n := Nat.mod_lt _ hpos
  refine ⟨?_, ?_, calculate_target_index_lt blockhash hpos⟩
  · unfold calculate_target_index
    exact Nat.mod_eq_of_lt (lt_of_lt_of_le hlt (by omega))
  · apply u64FromBeBytes_lt
    · exact fun b hb => hbytes b (List.take_subset 8 blockhash hb)
    · simp [List.length_take, hlen]

/-- Witness for C4 at the concrete entropy value whose first 8 bytes encode
7, with 5 available targets. -/
theorem select_spec_witness :
    calculate_target_index entropy7Bytes 5
        = u64FromBeBytes (entropy7Bytes.take 8) % 5 ∧
    u64FromBeBytes (entropy7Bytes.take 8) < 2 ^ 64 ∧
    calculate_target_index entropy7Bytes 5 < 5 :=
  select_spec entropy7Bytes 5 (by decide) (by decide) (by decide) (by decide)

/-- C10 counterexample: the submit-time `completed_target_indices` does
influence finalization, through its length.  The session account is sized
at submit for the stored list and finalize serializes with no realloc, so
the same finalize call (entropy7, completed = `[2]`) aborts with the
serialization io error for a session whose stored list is empty, yet
commits for a session identical except for a one-entry stored list — two
different results, refuting the claimed equality at a concrete input. -/
theorem finalize_stored_length_matters :
    process_finalize_session true (some sessionA) (some poolB) 102 50 "s1"
        entropy7 [2] = .error .BorshIoError ∧
    process_finalize_session true
        (some { sessionA with completed_target_indices := [9] }) (some poolB)
        102 50 "s1" entropy7 [2]
      = .ok { sessionA with
              submission_blockhash := entropy7Bytes
              assigned_target_index := 4
              finalized := true
              finalized_at := 50
              completed_target_indices := [2] } ∧
    process_finalize_session true (some sessionA) (some poolB) 102 50 "s1"
        entropy7 [2]
      ≠ process_finalize_session true
          (some { sessionA with completed_target_indices := [9] }) (some poolB)
          102 50 "s1" entropy7 [2] := by
  have h1 : process_finalize_session true (some sessionA) (some poolB) 102 50
      "s1" entropy7 [2] = .error .BorshIoError := rfl
  have h2 : process_finalize_session true
      (some { sessionA with completed_target_indices := [9] }) (some poolB)
      102 50 "s1" entropy7 [2]
      = .ok { sessionA with
              submission_blockhash := entropy7Bytes
              assigned_target_index := 4
              finalized := true
              finalized_at := 50
              completed_target_indices := [2] } := rfl
  refine ⟨h1, h2, ?_⟩
  rw [h1, h2]
  exact fun h => Except.noConfusion h

/-- C10 amended: the content of the submit-time `completed_target_indices`
has no influence on finalization — only its length does, by fixing the
session account's size at submit.  Two session records that differ only in
that field but agree on its length produce byte-for-byte identical finalize
results (same error, or same finalized session — the persisted set and the
assigned index come solely from the finalize call's own argument), for
every pool, clock and argument list. -/
theorem finalize_ignores_stored_completed_content (s : Session)
    (c1 c2 : List Nat) (hlen : c1.length = c2.length) (sig : Bool)
    (pd : Option TargetPool) (slot : Nat) (t : Int) (sid bh : String)
    (cti : List Nat) :
    process_finalize_session sig
        (some { s with completed_target_indices := c1 }) pd slot t sid bh cti
      = process_finalize_session sig
        (some { s with completed_target_indices := c2 }) pd slot t sid bh cti := by
  have hsz : sessionSerializedSize { s with completed_target_indices := c1 }
      = sessionSerializedSize { s with completed_target_indices := c2 } := by
    simp [sessionSerializedSize, hlen]
  unfold process_finalize_session
  dsimp only
  rw [hsz]
  rfl

/-- Witness for the amended C10: two stored one-entry lists with different
contents give the same finalize result. -/
theorem finalize_ignores_stored_completed_content_witness :
    process_finalize_session true
        (some { sessionA with completed_target_indices := [9] }) (some poolB)
        102 50 "s1" entropy7 [2]
      = process_finalize_session true
        (some { sessionA with completed_target_indices := [5] }) (some poolB)
        102 50 "s1" entropy7 [2] :=
  finalize_ignores_stored_completed_content sessionA [9] [5] rfl true
    (some poolB) 102 50 "s1" entropy7 [2]

/-- C2: (i) a successful submit stores the sentinel `u16::MAX = 65535`
as `assigned_target_index` with `finalized = false`; (ii) the invariant
"every unfinalized stored session carries the sentinel" is preserved by
every instruction, so the sentinel persists until a `FinalizeSession`
succeeds; (iii) a successful finalize assigns an index in
`[0, pool.target_count)` (for the pool record read at that call) that is
not a member of the `completed_target_indices` argument supplied at that
call. -/
theorem assigned_sentinel_until_finalized :
    (∀ (submitter : Pubkey) (sig : Bool) (sd : Option Session)
        (pd : Option TargetPool) (slot : Nat) (t : Int) (sid pid : String)
        (mh : Hash32) (tsp : Pubkey) (cti : List Nat) (s : Session),
      process_submit_session submitter sig sd pd slot t sid pid mh tsp cti
          = .ok s →
      s.assigned_target_index = 65535 ∧ s.finalized = false) ∧
    (∀ (l : Ledger) (ctx : CallCtx) (i : RemoteViewingInstruction)
        (l2 : Ledger),
      sentinelInvariant l → applyInstruction l ctx i = .ok l2 →
      sentinelInvariant l2) ∧
    (∀ (sig : Bool) (sd : Option Session) (pool : TargetPool) (slot : Nat)
        (t : Int) (sid bh : String) (cti : List Nat) (s2 : Session),
      process_finalize_session sig sd (some pool) slot t sid bh cti = .ok s2 →
      s2.assigned_target_index < pool.target_count ∧
      s2.assigned_target_index ∉ cti) := by
  refine ⟨?_, ?_, ?_⟩
  · intro submitter sig sd pd slot t sid pid mh tsp cti s h
    obtain ⟨pool, _, _, _, hs⟩ := submit_ok_inv h
    subst hs
    exact ⟨rfl, rfl⟩
  · intro l ctx i l2 hinv happ
    cases i with
    | CreateTargetPool pid hashes =>
      simp only [applyInstruction] at happ
      obtain ⟨q, _, hl2⟩ := except_map_ok happ
      subst hl2
      intro k s hk hf
      rw [getSession_setPool] at hk
      exact hinv k s hk hf
    | SubmitSession sid pid mh tsp cti =>
      simp only [applyInstruction] at happ
      obtain ⟨q, hq, hl2⟩ := except_map_ok happ
      subst hl2
      obtain ⟨pool, _, _, _, hqv⟩ := submit_ok_inv hq
      intro k s hk hf
      by_cases hks : k = sid
      · subst hks
        rw [getSession_setSession_self] at hk
        rw [← Option.some.inj hk, hqv]
      · rw [getSession_setSession_ne _ _ hks] at hk
        exact hinv k s hk hf
    | FinalizeSession sid bh cti =>
      simp only [applyInstruction] at happ
      obtain ⟨q, hq, hl2⟩ := except_map_ok happ
      subst hl2
      obtain ⟨sess, pool, bytes, _, _, _, _, _, _, _, _, _, hqv⟩ :=
        finalize_ok_inv hq
      intro k s hk hf
      by_cases hks : k = sid
      · subst hks
        rw [getSession_setSession_self] at hk
        rw [← Option.some.inj hk, hqv] at hf
        exact Bool.noConfusion hf
      · rw [getSession_setSession_ne _ _ hks] at hk
        exact hinv k s hk hf
    | AppendTargetsToPool pid hashes =>
      simp only [applyInstruction] at happ
      obtain ⟨q, _, hl2⟩ := except_map_ok happ
      subst hl2
      intro k s hk hf
      rw [getSession_setPool] at hk
      exact hinv k s hk hf
    | FinalizePool pid =>
      simp only [applyInstruction] at happ
      obtain ⟨q, _, hl2⟩ := except_map_ok happ
      subst hl2
      intro k s hk hf
      rw [getSession_setPool] at hk
      exact hinv k s hk hf
  · intro sig sd pool slot t sid bh cti s2 h
    obtain ⟨sess, pool2, bytes, _, hpd, _, _, _, _, _, _, hne, hs2⟩ :=
      finalize_ok_inv h
    have hpp : pool2 = pool := (Option.some.inj hpd).symm
    subst hpp
    subst hs2
    have hmem := assigned_mem_available
      (availableIndices pool2.target_count cti) bytes hne
    exact mem_availableIndices hmem

theorem sentinelInvariant_empty : sentinelInvariant emptyLedger := by
  intro k s h
  simp [emptyLedger, Ledger.getSession, List.lookup] at h

/-- Witness for C2: a concrete submit yields the sentinel; a concrete
instruction preserves the sentinel invariant; a concrete finalize against
the 5-target pool assigns index 2, inside `[0, 5)` and outside the supplied
completed set. -/
theorem assigned_sentinel_until_finalized_witness :
    (sessionSub.assigned_target_index = 65535 ∧ sessionSub.finalized = false) ∧
    sentinelInvariant (emptyLedger.setPool "p" poolCreated) ∧
    (session1Final.assigned_target_index < poolB.target_count ∧
      session1Final.assigned_target_index ∉ ([] : List Nat)) :=
  ⟨assigned_sentinel_until_finalized.1 3 true none (some poolB) 100 0 "s9" "B"
      hash0 2 [7] sessionSub rfl,
   assigned_sentinel_until_finalized.2.1 emptyLedger ⟨1, true, 100, 0, "x"⟩
      (.CreateTargetPool "p" []) (emptyLedger.setPool "p" poolCreated)
      sentinelInvariant_empty rfl,
   assigned_sentinel_until_finalized.2.2 true (some sessionA) poolB 102 50
      "s1" entropy7 [] session1Final rfl⟩

theorem isEmpty_false_of_decode32 {bh : String} {bytes : List Nat}
    (hdec : bs58Decode bh = some bytes) (hlen : bytes.length = 32) :
    bh.isEmpty = false := by
  cases hbe : bh.isEmpty with
  | false => rfl
  | true =>
    exfalso
    have hempty : bh = "" := (String.isEmpty_iff bh).mp hbe
    rw [hempty] at hdec
    have h0 : bs58Decode "" = some [] := rfl
    rw [h0] at hdec
    have hb : bytes = [] := (Option.some.inj hdec).symm
    rw [hb] at hlen
    exact absurd hlen (by decide)

/-- C5: for an unfinalized session found by `FinalizeSession` (signer
present, matching id), with `current` the clock slot: the call returns
`TooEarlyToFinalize` exactly when `current < submission_slot + 2`; it
returns `InvalidSlotHash` whenever `current > submission_slot + 150`; and
inside `[submission_slot + 2, submission_slot + 150]` neither timing
failure fires — `TooEarlyToFinalize` is impossible, and `InvalidSlotHash`
can only arise from a malformed entropy encoding, never from the timing
checks (the source reuses the same error code for both). -/
theorem finalize_timing_window (s : Session) (pd : Option TargetPool)
    (slot : Nat) (t : Int) (sid bh : String) (cti : List Nat)
    (hsid : s.session_id = sid) (hfin : s.finalized = false) :
    (process_finalize_session true (some s) pd slot t sid bh cti
        = .error (.Custom .TooEarlyToFinalize)
      ↔ slot < s.submission_slot + 2) ∧
    (s.submission_slot + 150 < slot →
      process_finalize_session true (some s) pd slot t sid bh cti
        = .error (.Custom .InvalidSlotHash)) ∧
    (s.submission_slot + 2 ≤ slot → slot ≤ s.submission_slot + 150 →
      process_finalize_session true (some s) pd slot t sid bh cti
        ≠ .error (.Custom .TooEarlyToFinalize) ∧
      (entropyWellFormed bh = true →
        process_finalize_session true (some s) pd slot t sid bh cti
          ≠ .error (.Custom .InvalidSlotHash))) := by
  have hTE : slot < s.submission_slot + 2 →
      process_finalize_session true (some s) pd slot t sid bh cti
        = .error (.Custom .TooEarlyToFinalize) := by
    intro hlt
    simp [process_finalize_session, hsid, hfin, hlt]
  have hIS : s.submission_slot + 150 < slot →
      process_finalize_session true (some s) pd slot t sid bh cti
        = .error (.Custom .InvalidSlotHash) := by
    intro hgt
    have hnl : ¬ slot < s.submission_slot + 2 := by omega
    simp [process_finalize_session, hsid, hfin, hnl, hgt]
  have hwin : s.submission_slot + 2 ≤ slot → slot ≤ s.submission_slot + 150 →
      process_finalize_session true (some s) pd slot t sid bh cti
        ≠ .error (.Custom .TooEarlyToFinalize) ∧
      (entropyWellFormed bh = true →
        process_finalize_session true (some s) pd slot t sid bh cti
          ≠ .error (.Custom .InvalidSlotHash)) := by
    intro hc2 hc150
    have hnl : ¬ slot < s.submission_slot + 2 := by omega
    have hng : ¬ slot > s.submission_slot + 150 := by omega
    cases pd with
    | none =>
      have hres : process_finalize_session true (some s) none slot t sid bh cti
          = .error .BorshIoError := by
        simp [process_finalize_session, hsid, hfin, hnl, hng]
      rw [hres]
      exact ⟨by simp, fun _ => by simp⟩
    | some pool =>
      cases hbe : bh.isEmpty with
      | true =>
        have hwf : entropyWellFormed bh = false := by
          simp [entropyWellFormed, hbe]
        have hres : process_finalize_session true (some s) (some pool) slot t
            sid bh cti = .error (.Custom .InvalidSlotHash) := by
          simp [process_finalize_session, hsid, hfin, hnl, hng, hbe]
        rw [hres]
        refine ⟨by simp, fun hc => ?_⟩
        rw [hwf] at hc
        exact Bool.noConfusion hc
      | false =>
        cases hdec : bs58Decode bh with
        | none =>
          have hwf : entropyWellFormed bh = false := by
            simp [entropyWellFormed, hdec]
          have hres : process_finalize_session true (some s) (some pool) slot t
              sid bh cti = .error (.Custom .InvalidSlotHash) := by
            simp [process_finalize_session, hsid, hfin, hnl, hng, hbe, hdec]
          rw [hres]
          refine ⟨by simp, fun hc => ?_⟩
          rw [hwf] at hc
          exact Bool.noConfusion hc
        | some bytes =>
          by_cases hlen : bytes.length = 32
          · by_cases hemp : (availableIndices pool.target_count cti).isEmpty = true
            · have hres : process_finalize_session true (some s) (some pool)
                  slot t sid bh cti = .error (.Custom .AllTargetsCompleted) := by
                simp [process_finalize_session, hsid, hfin, hnl, hng, hbe, hdec,
                  hlen, hemp]
              rw [hres]
              exact ⟨by simp, fun _ => by simp⟩
            · by_cases hsz : sessionSerializedSize
                    (finalizedSession s pool bytes t cti)
                  > sessionSerializedSize s
              · have hres : process_finalize_session true (some s) (some pool)
                    slot t sid bh cti = .error .BorshIoError := by
                  simp [process_finalize_session, hsid, hfin, hnl, hng, hbe,
                    hdec, hlen, hemp, hsz]
                rw [hres]
                exact ⟨by simp, fun _ => by simp⟩
              · have hres : process_finalize_session true (some s) (some pool)
                    slot t sid bh cti
                    = .ok (finalizedSession s pool bytes t cti) := by
                  simp [process_finalize_session, hsid, hfin, hnl, hng, hbe,
                    hdec, hlen, hemp, hsz]
                rw [hres]
                exact ⟨by simp, fun _ => by simp⟩
          · have hwf : entropyWellFormed bh = false := by
              simp [entropyWellFormed, hdec, hlen]
            have hres : process_finalize_session true (some s) (some pool) slot
                t sid bh cti = .error (.Custom .InvalidSlotHash) := by
              simp [process_finalize_session, hsid, hfin, hnl, hng, hbe, hdec,
                hlen]
            rw [hres]
            refine ⟨by simp, fun hc => ?_⟩
            rw [hwf] at hc
            exact Bool.noConfusion hc
  refine ⟨⟨?_, hTE⟩, hIS, hwin⟩
  intro hres
  by_contra hnlt
  rw [Nat.not_lt] at hnlt
  by_cases hgt : s.submission_slot + 150 < slot
  · have := hIS hgt
    rw [this] at hres
    simp at hres
  · have hc150 : slot ≤ s.submission_slot + 150 := by omega
    exact (hwin hnlt hc150).1 hres

/-- Witness for C5 at a concrete in-window call (slot 102, submitted at
100). -/
theorem finalize_timing_window_witness :
    (process_finalize_session true (some sessionA) (some poolB) 102 50 "s1"
        entropy7 [2] = .error (.Custom .TooEarlyToFinalize)
      ↔ 102 < sessionA.submission_slot + 2) ∧
    (sessionA.submission_slot + 150 < 102 →
      process_finalize_session true (some sessionA) (some poolB) 102 50 "s1"
        entropy7 [2] = .error (.Custom .InvalidSlotHash)) ∧
    (sessionA.submission_slot + 2 ≤ 102 →
      102 ≤ sessionA.submission_slot + 150 →
      process_finalize_session true (some sessionA) (some poolB) 102 50 "s1"
        entropy7 [2] ≠ .error (.Custom .TooEarlyToFinalize) ∧
      (entropyWellFormed entropy7 = true →
        process_finalize_session true (some sessionA) (some poolB) 102 50 "s1"
          entropy7 [2] ≠ .error (.Custom .InvalidSlotHash))) :=
  finalize_timing_window sessionA (some poolB) 102 50 "s1" entropy7 [2] rfl rfl

/-- C3: with a 5-target pool, an in-window finalize whose entropy's
leading 8 bytes are the big-endian encoding of 7 and
`completed_target_indices = [2]`: the available set is `[0, 1, 3, 4]`, the
selector position is `7 mod 4 = 3`, and the assigned target index is
`available[3] = 4` — the original pool index, not the filtered position.
The `hroom` hypothesis makes the scenario's session realizable: its
submit-time completed list holds at least one entry, so the finalize-time
list `[2]` fits the session account, which was sized at submit and is never
reallocated. -/
theorem scenario_completed_two (s : Session) (pool : TargetPool)
    (slot : Nat) (t : Int) (sid bh : String) (bytes : List Nat)
    (hsid : s.session_id = sid) (hfin : s.finalized = false)
    (h2 : s.submission_slot + 2 ≤ slot) (h150 : slot ≤ s.submission_slot + 150)
    (htc : pool.target_count = 5)
    (hdec : bs58Decode bh = some bytes) (hlen : bytes.length = 32)
    (hlead : bytes.take 8 = [0, 0, 0, 0, 0, 0, 0, 7])
    (hroom : 1 ≤ s.completed_target_indices.length) :
    availableIndices pool.target_count [2] = [0, 1, 3, 4] ∧
    calculate_target_index bytes
        (availableIndices pool.target_count [2]).length = 3 ∧
    process_finalize_session true (some s) (some pool) slot t sid bh [2]
      = .ok { s with
              submission_blockhash := bytes
              assigned_target_index := 4
              finalized := true
              finalized_at := t
              completed_target_indices := [2] } := by
  have havail : availableIndices pool.target_count [2] = [0, 1, 3, 4] := by
    rw [htc]
    decide
  have hcalc : calculate_target_index bytes
      (availableIndices pool.target_count [2]).length = 3 := by
    rw [havail]
    unfold calculate_target_index
    rw [hlead]
    decide
  have hbe : bh.isEmpty = false := isEmpty_false_of_decode32 hdec hlen
  have hnl : ¬ slot < s.submission_slot + 2 := by omega
  have hng : ¬ slot > s.submission_slot + 150 := by omega
  have hemp : (availableIndices pool.target_count [2]).isEmpty = false := by
    rw [havail]
    rfl
  have hsz : ¬ sessionSerializedSize (finalizedSession s pool bytes t [2])
      > sessionSerializedSize s := by
    simp only [sessionSerializedSize, finalizedSession]
    simp
    omega
  refine ⟨havail, hcalc, ?_⟩
  have hgetD : (availableIndices pool.target_count [2]).getD
      (calculate_target_index bytes
        (availableIndices pool.target_count [2]).length) 0 = 4 := by
    rw [hcalc, havail]
    rfl
  have hok : process_finalize_session true (some s) (some pool) slot t sid bh
      [2] = .ok (finalizedSession s pool bytes t [2]) := by
    simp [process_finalize_session, hsid, hfin, hnl, hng, hbe, hdec, hlen,
      hemp, hsz]
  have hrec : finalizedSession s pool bytes t [2]
      = { s with
          submission_blockhash := bytes
          assigned_target_index := 4
          finalized := true
          finalized_at := t
          completed_target_indices := [2] } := by
    unfold finalizedSession
    rw [hgetD]
  rw [hok, hrec]

/-- Witness for C3 at the concrete scenario: session submitted at slot 100
with a one-entry completed list, finalized at slot 102 against the 5-target
pool with `entropy7`. -/
theorem scenario_completed_two_witness :
    availableIndices poolB.target_count [2] = [0, 1, 3, 4] ∧
    calculate_target_index entropy7Bytes
        (availableIndices poolB.target_count [2]).length = 3 ∧
    process_finalize_session true (some sessionA2) (some poolB) 102 50 "s1"
        entropy7 [2]
      = .ok { sessionA2 with
              submission_blockhash := entropy7Bytes
              assigned_target_index := 4
              finalized := true
              finalized_at := 50
              completed_target_indices := [2] } :=
  scenario_completed_two sessionA2 poolB 102 50 "s1" entropy7 entropy7Bytes
    rfl rfl (by decide) (by decide) rfl rfl (by decide) (by decide) (by decide)

/-- C9: a `FinalizeSession` call that passes the signer, lookup,
timing, and entropy-format checks but whose `completed_target_indices`
argument covers every index of `[0, pool.target_count)` fails with
`AllTargetsCompleted`, and the failed transaction leaves the ledger — in
particular the session record — unchanged. -/
theorem finalize_all_completed (l : Ledger) (ctx : CallCtx) (sid bh : String)
    (cti : List Nat) (s : Session) (pool : TargetPool) (bytes : List Nat)
    (hsig : ctx.caller_is_signer = true)
    (hs : l.getSession sid = some s) (hsid : s.session_id = sid)
    (hfin : s.finalized = false)
    (h2 : s.submission_slot + 2 ≤ ctx.clock_slot)
    (h150 : ctx.clock_slot ≤ s.submission_slot + 150)
    (hpool : l.getPool ctx.supplied_pool_key = some pool)
    (hdec : bs58Decode bh = some bytes) (hlen : bytes.length = 32)
    (hall : ∀ i < pool.target_count, i ∈ cti) :
    applyInstruction l ctx (.FinalizeSession sid bh cti)
      = .error (.Custom .AllTargetsCompleted) ∧
    runInstruction l ctx (.FinalizeSession sid bh cti) = l := by
  have hbe : bh.isEmpty = false := isEmpty_false_of_decode32 hdec hlen
  have hnl : ¬ ctx.clock_slot < s.submission_slot + 2 := by omega
  have hng : ¬ ctx.clock_slot > s.submission_slot + 150 := by omega
  have hemp : (availableIndices pool.target_count cti).isEmpty = true :=
    List.isEmpty_iff.mpr ((availableIndices_eq_nil_iff _ _).mpr hall)
  have hproc : process_finalize_session ctx.caller_is_signer (some s)
      (some pool) ctx.clock_slot ctx.clock_unix_timestamp sid bh cti
      = .error (.Custom .AllTargetsCompleted) := by
    rw [hsig]
    simp [process_finalize_session, hsid, hfin, hnl, hng, hbe, hdec, hlen, hemp]
  have happ : applyInstruction l ctx (.FinalizeSession sid bh cti)
      = .error (.Custom .AllTargetsCompleted) := by
    simp only [applyInstruction, hs, hpool]
    rw [hproc]
    rfl
  exact ⟨happ, runInstruction_of_error happ⟩

/-- Witness for C9: finalizing session "s1" at slot 102 with the pool
account for "A" (2 targets) and `completed_target_indices = [0, 1]`. -/
theorem finalize_all_completed_witness :
    applyInstruction ledger1 ⟨9, true, 102, 50, "A"⟩
        (.FinalizeSession "s1" entropy7 [0, 1])
      = .error (.Custom .AllTargetsCompleted) ∧
    runInstruction ledger1 ⟨9, true, 102, 50, "A"⟩
        (.FinalizeSession "s1" entropy7 [0, 1]) = ledger1 :=
  finalize_all_completed ledger1 ⟨9, true, 102, 50, "A"⟩ "s1" entropy7 [0, 1]
    sessionA poolA entropy7Bytes rfl (by decide) rfl rfl (by decide)
    (by decide) (by decide) rfl rfl (by decide)

/-- C6 counterexample: submitting a session against a pool that does
not exist fails, but not with `PoolNotFound`: the handler deserializes the
(empty) pool account directly, so the failure surfaces as the borsh
deserialization error.  Concretely, on an empty ledger the submit below
returns `BorshIoError`, which differs from `Custom PoolNotFound`. -/
theorem submit_missing_pool_counterexample :
    applyInstruction emptyLedger ⟨1, true, 100, 0, "pool-1"⟩
        (.SubmitSession "sess-1" "pool-1" hash0 2 [])
      = .error .BorshIoError ∧
    ProgramError.BorshIoError ≠ ProgramError.Custom .PoolNotFound :=
  ⟨rfl, by decide⟩

/-- C6 amended: `SubmitSession` fails when the referenced pool
account holds no record — with the borsh deserialization error rather than
`PoolNotFound` — and fails with `PoolNotFound` when the supplied pool
record's stored `pool_id` differs from the `pool_id` argument; in every
failure case the transaction commits nothing, so no session record is
created. -/
theorem submit_pool_existence_checks (l : Ledger) (ctx : CallCtx)
    (sid pid : String) (mh : Hash32) (tsp : Pubkey) (cti : List Nat)
    (hsig : ctx.caller_is_signer = true)
    (hns : l.getSession sid = none) (hsid : sid.isEmpty = false)
    (hpid : pid.isEmpty = false) :
    (l.getPool ctx.supplied_pool_key = none →
      applyInstruction l ctx (.SubmitSession sid pid mh tsp cti)
        = .error .BorshIoError) ∧
    (∀ pool, l.getPool ctx.supplied_pool_key = some pool →
      pool.pool_id ≠ pid →
      applyInstruction l ctx (.SubmitSession sid pid mh tsp cti)
        = .error (.Custom .PoolNotFound)) ∧
    (∀ e, applyInstruction l ctx (.SubmitSession sid pid mh tsp cti)
        = .error e →
      runInstruction l ctx (.SubmitSession sid pid mh tsp cti) = l) := by
  refine ⟨?_, ?_, ?_⟩
  · intro hpool
    have hproc : process_submit_session ctx.caller ctx.caller_is_signer
        (l.getSession sid) (l.getPool ctx.supplied_pool_key) ctx.clock_slot
        ctx.clock_unix_timestamp sid pid mh tsp cti = .error .BorshIoError := by
      rw [hns, hpool, hsig]
      simp [process_submit_session, hsid, hpid]
    simp only [applyInstruction]
    rw [hproc]
    rfl
  · intro pool hpool hne
    have hproc : process_submit_session ctx.caller ctx.caller_is_signer
        (l.getSession sid) (l.getPool ctx.supplied_pool_key) ctx.clock_slot
        ctx.clock_unix_timestamp sid pid mh tsp cti
        = .error (.Custom .PoolNotFound) := by
      rw [hns, hpool, hsig]
      simp [process_submit_session, hsid, hpid, hne]
    simp only [applyInstruction]
    rw [hproc]
    rfl
  · intro e he
    exact runInstruction_of_error he

/-- Witness for the amended C6: submitting session "s9" naming pool "B"
while attaching the account that stores pool "A" fails with
`PoolNotFound`. -/
theorem submit_pool_existence_checks_witness :
    applyInstruction ledger1 ⟨3, true, 100, 0, "A"⟩
        (.SubmitSession "s9" "B" hash0 2 [])
      = .error (.Custom .PoolNotFound) :=
  (submit_pool_existence_checks ledger1 ⟨3, true, 100, 0, "A"⟩ "s9" "B"
      hash0 2 [] rfl (by decide) (by decide) (by decide)).2.1
    poolA (by decide) (by decide)

/-- C1 code defect: `process_finalize_session` never validates the
supplied pool account against the session's stored `pool_id` (it performs
no PDA or id check on that account, source lines 411-412), so the
availability set and the assigned index are computed from whatever pool
record the caller attaches.  Concretely: session "s1" references pool "A"
(2 targets), but finalizing it with pool "B" (5 targets) attached succeeds
and assigns index `7 mod 5 = 2` — an index that is not valid for the
referenced pool "A", contradicting the claimed invariant. -/
theorem finalize_reads_unvalidated_pool :
    applyInstruction ledger1 ⟨9, true, 102, 50, "B"⟩
        (.FinalizeSession "s1" entropy7 [])
      = .ok (ledger1.setSession "s1" session1Final) ∧
    sessionA.pool_id = "A" ∧
    (ledger1.getPool "A").map TargetPool.target_count = some 2 ∧
    session1Final.assigned_target_index = 2 ∧
    ¬ session1Final.assigned_target_index < 2 :=
  ⟨rfl, rfl, by decide, by decide, by decide⟩
